import Mathlib

/-!
Shallow embedding of the task-manager web application: the Express/Mongoose
service routes in `Frontend/src/App copy.jsx` (server part) and the React
client's API reconciliation functions (`fetchTasks`, `createTask`,
`updateTask`, `deleteTask`).  Timestamps and ids are modelled as `Nat`,
the Mongo collection as a `List TaskRec` in insertion order, and request
outcomes as explicit values.
-/

/-- A task record, after the Mongoose schema: `text`, `completed`,
`important`, `createdAt`, `updatedAt`, plus the Mongo `_id`. -/
structure TaskRec where
  _id : Nat
  text : String
  completed : Bool
  important : Bool
  createdAt : Nat
  updatedAt : Nat
deriving DecidableEq, Repr

/-- Response of a route: `ok status value` on success, `err status msg`
for an error status with its JSON error message. -/
inductive ApiResult (α : Type) where
  | ok (status : Nat) (val : α)
  | err (status : Nat) (msg : String)
deriving DecidableEq, Repr

/-- Case-insensitive single-character match of the `$regex`/`$options: 'i'`
engine: `.` matches any character, any other pattern character matches a
text character up to case. -/
def charMatchI (p c : Char) : Bool :=
  p == '.' || p.toLower == c.toLower

/-- Match a regex pattern (restricted to literal characters and `.`)
against a prefix of the text, case-insensitively. -/
def matchAt : List Char → List Char → Bool
  | [], _ => true
  | _ :: _, [] => false
  | p :: ps, c :: cs => charMatchI p c && matchAt ps cs

/-- Unanchored case-insensitive regex search over the text, as Mongo's
`$regex` performs: the pattern may match starting at any position. -/
def regexFindI (pat : List Char) : List Char → Bool
  | [] => matchAt pat []
  | c :: cs => matchAt pat (c :: cs) || regexFindI pat cs

/-- Model of `{ $regex: pattern, $options: 'i' }` applied to `text`.
The `$regex` dialect is modelled on the fragment where the only
metacharacter occurring in the pattern is `.`; on patterns free of the
other metacharacters this agrees with the store's engine. -/
def regexTestI (pattern text : String) : Bool :=
  regexFindI pattern.data text.data

/-- Characters that carry a special meaning in the store's regex dialect. -/
def isRegexMeta (c : Char) : Bool :=
  c == '.' || c == '\\' || c == '^' || c == '$' || c == '*' || c == '+' ||
  c == '?' || c == '(' || c == ')' || c == '[' || c == ']' ||
  c == Char.ofNat 123 || c == Char.ofNat 125 || c == '|'

/-- Case-insensitive literal prefix match (spec-side definition, used to
compare the code's regex behaviour with literal-substring semantics). -/
def literalAt : List Char → List Char → Bool
  | [], _ => true
  | _ :: _, [] => false
  | p :: ps, c :: cs => (p.toLower == c.toLower) && literalAt ps cs

/-- Case-insensitive literal substring search (spec-side definition). -/
def literalFind (pat : List Char) : List Char → Bool
  | [] => literalAt pat []
  | c :: cs => literalAt pat (c :: cs) || literalFind pat cs

/-- Spec-side predicate: `text` contains `sub` as a case-insensitive
literal substring. -/
def containsCI (text sub : String) : Bool :=
  literalFind sub.data text.data

/-- Model of JavaScript's `String.prototype.trim` (also the Mongoose
`trim: true` schema option): strip leading and trailing whitespace. -/
def jsTrim (s : String) : String :=
  ⟨((s.data.dropWhile Char.isWhitespace).reverse.dropWhile Char.isWhitespace).reverse⟩

namespace Server

/-- Ordering used by `TaskRec.find(query).sort({ createdAt: -1 })`:
descending by `createdAt`. -/
def taskGE (a b : TaskRec) : Prop := b.createdAt ≤ a.createdAt

instance : DecidableRel taskGE := fun a b => Nat.decLe b.createdAt a.createdAt

instance : IsTotal TaskRec taskGE := ⟨fun a b => Nat.le_total b.createdAt a.createdAt⟩

instance : IsTrans TaskRec taskGE := ⟨fun _ _ _ h1 h2 => Nat.le_trans h2 h1⟩

/-- The `filter` part of the query built by `GET /api/tasks`:
`completed` selects `completed: true`, `pending` selects
`completed: false`, `important` selects `important: true`, anything else
adds no constraint. -/
def filterPred (filter : Option String) (t : TaskRec) : Bool :=
  if filter = some "completed" then t.completed
  else if filter = some "pending" then !t.completed
  else if filter = some "important" then t.important
  else true

/-- The `search` part of the query: when `search` is present and
non-empty (JS truthiness), `text` must satisfy
`{ $regex: search, $options: 'i' }`; otherwise no constraint. -/
def searchPred (search : Option String) (t : TaskRec) : Bool :=
  match search with
  | none => true
  | some s => if s = "" then true else regexTestI s t.text

/-- `GET /api/tasks`: find the records matching both query parts and sort
them descending by `createdAt` (stable sort over insertion order). -/
def getTasks (filter search : Option String) (coll : List TaskRec) : List TaskRec :=
  List.insertionSort taskGE
    (coll.filter (fun t => filterPred filter t && searchPred search t))

/-- `POST /api/tasks`: reject with 400 when `text` is absent or trims to
empty, else create the record with trimmed text, schema defaults
`completed = false`, `important` from the body or default `false`, and
both timestamps stamped to the current time. -/
def createTask (text : Option String) (important : Option Bool)
    (now freshId : Nat) (coll : List TaskRec) : ApiResult TaskRec × List TaskRec :=
  match text with
  | none => (.err 400 "Task text is required", coll)
  | some s =>
    if jsTrim s = "" then (.err 400 "Task text is required", coll)
    else
      let task : TaskRec :=
        { _id := freshId, text := jsTrim s, completed := false,
          important := important.getD false, createdAt := now, updatedAt := now }
      (.ok 201 task, coll ++ [task])

/-- Application of the `updateData` object built by `PUT /api/tasks/:id`
to a stored record: provided fields overwrite (with `text` trimmed),
absent fields are left untouched, and `updatedAt` is always set to the
current time. -/
def applyUpdateData (text : Option String) (completed important : Option Bool)
    (now : Nat) (t : TaskRec) : TaskRec :=
  { t with
    text := match text with | some s => jsTrim s | none => t.text
    completed := completed.getD t.completed
    important := important.getD t.important
    updatedAt := now }

/-- `PUT /api/tasks/:id`: build `updateData` from the provided fields,
apply it to the record with the given id via `findByIdAndUpdate`
(returning the new document), or answer 404 when no record has that
id. -/
def updateTask (id : Nat) (text : Option String)
    (completed important : Option Bool) (now : Nat)
    (coll : List TaskRec) : ApiResult TaskRec × List TaskRec :=
  match coll.find? (fun t => t._id == id) with
  | none => (.err 404 "Task not found", coll)
  | some t =>
    let u : TaskRec := applyUpdateData text completed important now t
    (.ok 200 u, coll.map (fun x => if x._id == id then u else x))

/-- `DELETE /api/tasks/:id`: remove the record with the given id via
`findByIdAndDelete` and answer a confirmation message, or 404 when no
record has that id. -/
def deleteTask (id : Nat) (coll : List TaskRec) : ApiResult String × List TaskRec :=
  match coll.find? (fun t => t._id == id) with
  | none => (.err 404 "Task not found", coll)
  | some _ =>
    (.ok 200 "Task deleted successfully", coll.eraseP (fun t => t._id == id))

/-- The four counts of `GET /api/tasks/stats`. -/
structure Stats where
  total : Nat
  completed : Nat
  pending : Nat
  important : Nat
deriving DecidableEq, Repr

/-- One step of the `$group` accumulator of the stats aggregation. -/
def statsStep (acc : Stats) (t : TaskRec) : Stats :=
  { total := acc.total + 1
    completed := acc.completed + (if t.completed = true then 1 else 0)
    pending := acc.pending + (if t.completed = false then 1 else 0)
    important := acc.important + (if t.important = true then 1 else 0) }

/-- `GET /api/tasks/stats`: the `$group` aggregation summed over the whole
collection; when the collection is empty the pipeline yields no group and
the route answers the explicit all-zero default. -/
def getStats (coll : List TaskRec) : Stats :=
  match coll with
  | [] => { total := 0, completed := 0, pending := 0, important := 0 }
  | _ => coll.foldl statsStep { total := 0, completed := 0, pending := 0, important := 0 }

end Server

/-- The client-side state touched by the API functions: the task mirror,
the surfaced error message, the loading flag, and a counter of
`fetchStats()` calls issued (each one triggers an aggregate refresh). -/
structure ClientState where
  tasks : List TaskRec
  error : Option String
  loading : Bool
  statsFetches : Nat
deriving DecidableEq, Repr

namespace Client

/-- Client `fetchTasks`: on a successful response replace the mirror with
the server data and clear the error; on failure keep the mirror and
surface an error. `loading` ends false either way (the `finally`). -/
def fetchTasks (st : ClientState) (resp : Option (List TaskRec)) : ClientState :=
  match resp with
  | some data => { st with tasks := data, error := none, loading := false }
  | none => { st with error := some "Failed to load tasks. Please try again.",
                      loading := false }

/-- Client `createTask`: on success prepend the server-returned record to
the mirror and trigger a stats refresh; on failure surface an error. -/
def createTask (st : ClientState) (resp : Option TaskRec) : ClientState :=
  match resp with
  | some newTask =>
    { st with tasks := newTask :: st.tasks, statsFetches := st.statsFetches + 1 }
  | none => { st with error := some "Failed to create task. Please try again." }

/-- Client `updateTask`: on success replace, in place, the mirror records
whose `_id` equals the updated id with the server-returned record and
trigger a stats refresh; on failure surface an error. -/
def updateTask (st : ClientState) (id : Nat) (resp : Option TaskRec) : ClientState :=
  match resp with
  | some updatedTask =>
    { st with tasks := st.tasks.map (fun t => if t._id == id then updatedTask else t)
              statsFetches := st.statsFetches + 1 }
  | none => { st with error := some "Failed to update task. Please try again." }

/-- Client `deleteTask`: on success drop the mirror records whose `_id`
equals the deleted id and trigger a stats refresh; on failure surface an
error. -/
def deleteTask (st : ClientState) (id : Nat) (resp : Option String) : ClientState :=
  match resp with
  | some _ =>
    { st with tasks := st.tasks.filter (fun t => t._id != id)
              statsFetches := st.statsFetches + 1 }
  | none => { st with error := some "Failed to delete task. Please try again." }

end Client

/-- A concrete stored record used to evaluate the theorems. -/
def sampleTask1 : TaskRec :=
  { _id := 1, text := "alpha", completed := false, important := false,
    createdAt := 10, updatedAt := 10 }

/-- A concrete stored record whose text contains "Foo" up to case. -/
def sampleFood : TaskRec :=
  { _id := 2, text := "Food", completed := false, important := true,
    createdAt := 5, updatedAt := 5 }

/-- A concrete stored record whose text "abc" matches the regex `a.c`
although it does not contain `a.c` literally. -/
def sampleAbc : TaskRec :=
  { _id := 3, text := "abc", completed := false, important := false,
    createdAt := 0, updatedAt := 0 }

section Lemmas

/-- On a pattern character that is not `.`, the regex engine's character
match is the literal case-insensitive one. -/
theorem charMatchI_eq_literal (p c : Char) (hp : (p == '.') = false) :
    charMatchI p c = (p.toLower == c.toLower) := by
  simp [charMatchI, hp]

/-- A pattern free of metacharacters matches a prefix exactly as a
literal case-insensitive string would. -/
theorem matchAt_eq_literalAt (ps : List Char) (h : ∀ p ∈ ps, isRegexMeta p = false) :
    ∀ cs, matchAt ps cs = literalAt ps cs := by
  induction ps with
  | nil => intro cs; cases cs <;> rfl
  | cons p ps ih =>
    intro cs
    have hp : (p == '.') = false := by
      have hm := h p (List.mem_cons_self p ps)
      cases hd : (p == '.') with
      | false => rfl
      | true =>
        exfalso
        have hmeta : isRegexMeta p = true := by simp [isRegexMeta, hd]
        rw [hm] at hmeta
        cases hmeta
    cases cs with
    | nil => rfl
    | cons c cs =>
      simp only [matchAt, literalAt, charMatchI_eq_literal p c hp,
        ih (fun q hq => h q (List.mem_cons_of_mem p hq)) cs]

/-- The empty literal pattern is found in every text. -/
theorem literalFind_nil (l : List Char) : literalFind [] l = true := by
  cases l <;> simp [literalFind, literalAt]

/-- Unanchored search with a metacharacter-free pattern coincides with
literal case-insensitive substring search. -/
theorem regexFindI_eq_literalFind (ps : List Char) (h : ∀ p ∈ ps, isRegexMeta p = false) :
    ∀ cs, regexFindI ps cs = literalFind ps cs := by
  intro cs
  induction cs with
  | nil => simp [regexFindI, literalFind, matchAt_eq_literalAt ps h []]
  | cons c cs ihc =>
    simp [regexFindI, literalFind, matchAt_eq_literalAt ps h (c :: cs), ihc]

/-- For a metacharacter-free search string the query's search predicate is
exactly the literal case-insensitive substring test. -/
theorem searchPred_literal (s : String) (h : ∀ c ∈ s.data, isRegexMeta c = false)
    (t : TaskRec) : Server.searchPred (some s) t = containsCI t.text s := by
  have hred : Server.searchPred (some s) t =
      if s = "" then true else regexTestI s t.text := rfl
  rw [hred]
  unfold containsCI regexTestI
  by_cases hs : s = ""
  · subst hs
    rw [if_pos rfl]
    exact (literalFind_nil t.text.data).symm
  · rw [if_neg hs, regexFindI_eq_literalFind s.data h t.text.data]

/-- Two non-dot pattern characters that agree up to case match exactly the
same text characters. -/
theorem charMatchI_congr (p q : Char) (hpq : p.toLower = q.toLower)
    (hp : (p == '.') = false) (hq : (q == '.') = false) (c : Char) :
    charMatchI p c = charMatchI q c := by
  simp [charMatchI, hp, hq, hpq]

/-- Patterns whose characters match the same text characters match the
same prefixes. -/
theorem matchAt_congr (ps qs : List Char)
    (h : List.Forall₂ (fun p q => ∀ c, charMatchI p c = charMatchI q c) ps qs) :
    ∀ cs, matchAt ps cs = matchAt qs cs := by
  induction h with
  | nil => intro cs; rfl
  | @cons p q ps qs hpq _ ih =>
    intro cs
    cases cs with
    | nil => rfl
    | cons c cs => simp only [matchAt, hpq c, ih cs]

/-- Patterns that match the same prefixes are found at the same texts. -/
theorem regexFindI_congr (ps qs : List Char)
    (h : ∀ cs, matchAt ps cs = matchAt qs cs) :
    ∀ cs, regexFindI ps cs = regexFindI qs cs := by
  intro cs
  induction cs with
  | nil => simp only [regexFindI, h []]
  | cons c cs ihc => simp only [regexFindI, h (c :: cs), ihc]

/-- Closed form of the stats accumulator fold. -/
theorem foldl_statsStep (coll : List TaskRec) (acc : Server.Stats) :
    coll.foldl Server.statsStep acc =
      { total := acc.total + coll.length
        completed := acc.completed + (coll.filter (fun t => t.completed)).length
        pending := acc.pending + (coll.filter (fun t => !t.completed)).length
        important := acc.important + (coll.filter (fun t => t.important)).length } := by
  induction coll generalizing acc with
  | nil => simp
  | cons t ts ih =>
    rw [List.foldl_cons, ih]
    cases htc : t.completed <;> cases hti : t.important <;>
      simp [Server.statsStep, List.filter_cons, htc, hti, Server.Stats.mk.injEq] <;>
      omega

/-- Splitting a list by a boolean field preserves its length. -/
theorem length_filter_completed_split (l : List TaskRec) :
    (l.filter (fun t => t.completed)).length +
      (l.filter (fun t => !t.completed)).length = l.length := by
  induction l with
  | nil => rfl
  | cons t ts ih => cases h : t.completed <;> simp [List.filter_cons, h] <;> omega

/-- Membership in a `GET /api/tasks` response is membership in the
collection together with both query predicates. -/
theorem mem_getTasks {f s : Option String} {coll : List TaskRec} {t : TaskRec} :
    t ∈ Server.getTasks f s coll ↔
      t ∈ coll ∧ (Server.filterPred f t && Server.searchPred s t) = true := by
  unfold Server.getTasks
  rw [List.mem_insertionSort, List.mem_filter]

/-- Inserting into a list and then keeping only the records of one
`createdAt` value is the same as consing first: the insertion point only
skips records of strictly larger `createdAt`. -/
theorem filter_createdAt_orderedInsert (c : Nat) (a : TaskRec) (l : List TaskRec) :
    (List.orderedInsert Server.taskGE a l).filter (fun t => t.createdAt == c) =
      (a :: l).filter (fun t => t.createdAt == c) := by
  induction l with
  | nil => rfl
  | cons b l ih =>
    by_cases hab : Server.taskGE a b
    · rw [List.orderedInsert_of_le _ _ hab]
    · simp only [List.orderedInsert, if_neg hab]
      by_cases hb : b.createdAt == c
      · have hbc : b.createdAt = c := by simpa using hb
        have ha : (a.createdAt == c) = false := by
          simp only [Server.taskGE, not_le] at hab
          simp only [beq_eq_false_iff_ne, ne_eq]
          omega
        simp only [List.filter_cons, hb, ha, if_pos, Bool.false_eq_true, if_false] at ih ⊢
        rw [ih]
      · simp only [List.filter_cons, hb, Bool.false_eq_true, if_false] at ih ⊢
        rw [ih]

/-- The descending-`createdAt` insertion sort is stable: restricted to any
one `createdAt` value it returns the input order unchanged. -/
theorem filter_createdAt_insertionSort (c : Nat) (l : List TaskRec) :
    (List.insertionSort Server.taskGE l).filter (fun t => t.createdAt == c) =
      l.filter (fun t => t.createdAt == c) := by
  induction l with
  | nil => rfl
  | cons b l ih =>
    show (List.orderedInsert Server.taskGE b (List.insertionSort Server.taskGE l)).filter _ = _
    rw [filter_createdAt_orderedInsert]
    simp only [List.filter_cons, ih]

end Lemmas

/-- C1 (counterexample): the claim that a present, non-empty `search`
selects exactly the records whose text contains it as a case-insensitive
literal substring fails: with the single record "abc" and
`search = "a.c"`, `GET /api/tasks` returns the record even though "abc"
does not contain "a.c" as a literal substring — the unescaped search
string reaches the store's `$regex` operator, where `.` matches any
character. -/
theorem getTasks_search_not_literal_cex :
    Server.getTasks none (some "a.c") [sampleAbc] = [sampleAbc] ∧
    containsCI sampleAbc.text "a.c" = false := by
  constructor <;> decide

/-- C1 (amended): `search`, if present and non-empty, is interpreted as a
case-insensitive regular expression over `text`, so regex metacharacters
keep their special meaning; for search strings free of regex
metacharacters this is exactly case-insensitive literal-substring
selection, `search="foo"` and `search="FOO"` return identical result
sets, and an absent or empty search imposes no constraint. -/
theorem getTasks_search_amended :
    (∀ (s : String) (f : Option String) (coll : List TaskRec) (t : TaskRec),
        (∀ c ∈ s.data, isRegexMeta c = false) →
        (t ∈ Server.getTasks f (some s) coll ↔
          t ∈ Server.getTasks f none coll ∧ containsCI t.text s = true)) ∧
    (∀ (f : Option String) (coll : List TaskRec),
        Server.getTasks f (some "foo") coll = Server.getTasks f (some "FOO") coll) ∧
    (∀ (f : Option String) (coll : List TaskRec),
        Server.getTasks f (some "") coll = Server.getTasks f none coll) := by
  refine ⟨?_, ?_, ?_⟩
  · intro s f coll t h
    rw [mem_getTasks, mem_getTasks]
    have hnone : Server.searchPred none t = true := rfl
    rw [searchPred_literal s h t, hnone]
    simp only [Bool.and_true, Bool.and_eq_true, and_assoc]
  · intro f coll
    unfold Server.getTasks
    congr 1
    apply List.filter_congr
    intro t _
    have hfoo : Server.searchPred (some "foo") t = regexTestI "foo" t.text := rfl
    have hFOO : Server.searchPred (some "FOO") t = regexTestI "FOO" t.text := rfl
    rw [hfoo, hFOO]
    unfold regexTestI
    rw [regexFindI_congr "foo".data "FOO".data
      (matchAt_congr "foo".data "FOO".data
        (by
          refine List.Forall₂.cons (charMatchI_congr 'f' 'F' (by decide) (by decide) (by decide)) ?_
          refine List.Forall₂.cons (charMatchI_congr 'o' 'O' (by decide) (by decide) (by decide)) ?_
          refine List.Forall₂.cons (charMatchI_congr 'o' 'O' (by decide) (by decide) (by decide)) ?_
          exact List.Forall₂.nil))
      t.text.data]
  · intro f coll
    unfold Server.getTasks
    congr 1

/-- C1 (witness for the amended theorem): at search "foo" over the single
record with text "Food", the hypothesis and the instantiated conclusion
hold. -/
theorem getTasks_search_amended_witness :
    (∀ c ∈ "foo".data, isRegexMeta c = false) ∧
    (sampleFood ∈ Server.getTasks none (some "foo") [sampleFood] ↔
      sampleFood ∈ Server.getTasks none none [sampleFood] ∧
        containsCI sampleFood.text "foo" = true) :=
  ⟨by decide, getTasks_search_amended.1 "foo" none [sampleFood] sampleFood (by decide)⟩

/-- C2: `GET /api/tasks/stats` returns exactly a direct recount of the
collection (total = number of records, completed/pending/important = the
respective filter counts), hence completed + pending = total, and on the
empty collection all four counts are 0. -/
theorem getStats_recount (coll : List TaskRec) :
    Server.getStats coll =
      { total := coll.length
        completed := (coll.filter (fun t => t.completed)).length
        pending := (coll.filter (fun t => !t.completed)).length
        important := (coll.filter (fun t => t.important)).length } ∧
    (Server.getStats coll).completed + (Server.getStats coll).pending =
      (Server.getStats coll).total ∧
    Server.getStats [] =
      { total := 0, completed := 0, pending := 0, important := 0 } := by
  have hmain : Server.getStats coll =
      { total := coll.length
        completed := (coll.filter (fun t => t.completed)).length
        pending := (coll.filter (fun t => !t.completed)).length
        important := (coll.filter (fun t => t.important)).length } := by
    cases coll with
    | nil => rfl
    | cons t ts =>
      show (t :: ts).foldl Server.statsStep _ = _
      rw [foldl_statsStep]
      simp
  refine ⟨hmain, ?_, rfl⟩
  rw [hmain]
  exact length_filter_completed_split coll

/-- C3: `POST /api/tasks` answers 400 and leaves the collection unchanged
exactly when `text` is absent or trims to empty; otherwise it answers 201
with a record whose text is the trimmed input, `completed = false` and
`important` taken from the input or defaulting to false, appended to the
collection. -/
theorem createTask_validation (text : Option String) (imp : Option Bool)
    (now freshId : Nat) (coll : List TaskRec) :
    ((Server.createTask text imp now freshId coll).1 =
          ApiResult.err 400 "Task text is required" ∧
        (Server.createTask text imp now freshId coll).2 = coll ↔
      text = none ∨ ∃ s, text = some s ∧ jsTrim s = "") ∧
    (∀ s, text = some s → jsTrim s ≠ "" →
      Server.createTask text imp now freshId coll =
        (ApiResult.ok 201
            { _id := freshId, text := jsTrim s, completed := false,
              important := imp.getD false, createdAt := now, updatedAt := now },
          coll ++
            [{ _id := freshId, text := jsTrim s, completed := false,
               important := imp.getD false, createdAt := now, updatedAt := now }])) := by
  constructor
  · constructor
    · intro hfail
      cases text with
      | none => exact Or.inl rfl
      | some s =>
        refine Or.inr ⟨s, rfl, ?_⟩
        by_contra hne
        have : (Server.createTask (some s) imp now freshId coll).1 =
            ApiResult.ok 201
              { _id := freshId, text := jsTrim s, completed := false,
                important := imp.getD false, createdAt := now, updatedAt := now } := by
          simp [Server.createTask, hne]
        rw [this] at hfail
        cases hfail.1
    · intro hcase
      rcases hcase with h | ⟨s, hs, htrim⟩
      · subst h; exact ⟨rfl, rfl⟩
      · subst hs
        simp [Server.createTask, htrim]
  · intro s hs htrim
    subst hs
    simp [Server.createTask, htrim]

/-- C3 (witness): creating " buy milk " succeeds with stored text
"buy milk", `completed = false` and default `important = false`. -/
theorem createTask_validation_witness :
    Server.createTask (some " buy milk ") none 7 1 [] =
      (ApiResult.ok 201
          { _id := 1, text := jsTrim " buy milk ", completed := false,
            important := Option.getD none false, createdAt := 7, updatedAt := 7 },
        [] ++
          [{ _id := 1, text := jsTrim " buy milk ", completed := false,
             important := Option.getD none false, createdAt := 7, updatedAt := 7 }]) :=
  (createTask_validation (some " buy milk ") none 7 1 []).2 " buy milk " rfl (by decide)

/-- C4: an update or delete whose id is not in the collection answers 404
and leaves the collection entirely unchanged; a delete on an existing id
removes that record (the collection shrinks by one, and under unique ids
no record with the id remains) and answers the confirmation message, not
the record's content. -/
theorem update_delete_nonexistent (id : Nat) (text : Option String)
    (cmp imp : Option Bool) (now : Nat) (coll : List TaskRec) :
    ((∀ t ∈ coll, t._id ≠ id) →
      Server.updateTask id text cmp imp now coll =
          (ApiResult.err 404 "Task not found", coll) ∧
        Server.deleteTask id coll = (ApiResult.err 404 "Task not found", coll)) ∧
    ((∃ t ∈ coll, t._id = id) →
      (Server.deleteTask id coll).1 = ApiResult.ok 200 "Task deleted successfully" ∧
        (Server.deleteTask id coll).2.length + 1 = coll.length ∧
        (List.Nodup (coll.map TaskRec._id) →
          ∀ u ∈ (Server.deleteTask id coll).2, u._id ≠ id)) := by
  constructor
  · intro h
    have hf : coll.find? (fun t => t._id == id) = none :=
      List.find?_eq_none.mpr (fun x hx => by simpa using h x hx)
    exact ⟨by simp [Server.updateTask, hf], by simp [Server.deleteTask, hf]⟩
  · rintro ⟨t, ht, hid⟩
    have hpt : (fun x : TaskRec => x._id == id) t = true := by simpa using hid
    obtain ⟨t', hfind⟩ : ∃ t', coll.find? (fun x => x._id == id) = some t' := by
      cases hf : coll.find? (fun x => x._id == id) with
      | none => exact absurd hpt (by simpa using List.find?_eq_none.mp hf t ht)
      | some t' => exact ⟨t', rfl⟩
    have h2 : (Server.deleteTask id coll).2 = coll.eraseP (fun x => x._id == id) := by
      simp [Server.deleteTask, hfind]
    refine ⟨by simp [Server.deleteTask, hfind], ?_, ?_⟩
    · rw [h2]
      exact List.length_eraseP_add_one ht hpt
    · intro hnd u hu huid
      rw [h2] at hu
      obtain ⟨a, l₁, l₂, hl₁, hpa, hceq, herase⟩ :=
        @List.exists_of_eraseP TaskRec (fun x => x._id == id) coll t ht hpt
      rw [herase] at hu
      rcases List.mem_append.mp hu with hu1 | hu2
      · exact hl₁ u hu1 (by simpa using huid)
      · rw [hceq] at hnd
        simp only [List.map_append, List.map_cons] at hnd
        have hnotmem : TaskRec._id a ∉ l₂.map TaskRec._id :=
          (List.nodup_cons.mp (List.nodup_append.mp hnd).2.1).1
        have haid : a._id = id := by simpa using hpa
        apply hnotmem
        rw [haid, ← huid]
        exact List.mem_map_of_mem TaskRec._id hu2

/-- C4 (witness): with a single stored record of id 1, updating or
deleting id 2 answers 404 and changes nothing; deleting id 1 answers the
confirmation and empties the collection. -/
theorem update_delete_nonexistent_witness :
    (Server.updateTask 2 none none none 7 [sampleTask1] =
        (ApiResult.err 404 "Task not found", [sampleTask1]) ∧
      Server.deleteTask 2 [sampleTask1] =
        (ApiResult.err 404 "Task not found", [sampleTask1])) ∧
    ((Server.deleteTask 1 [sampleTask1]).1 =
        ApiResult.ok 200 "Task deleted successfully" ∧
      (Server.deleteTask 1 [sampleTask1]).2.length + 1 = [sampleTask1].length ∧
      (List.Nodup ([sampleTask1].map TaskRec._id) →
        ∀ u ∈ (Server.deleteTask 1 [sampleTask1]).2, u._id ≠ 1)) :=
  ⟨(update_delete_nonexistent 2 none none none 7 [sampleTask1]).1
      (by intro t ht; simp at ht; subst ht; decide),
    (update_delete_nonexistent 1 none none none 7 [sampleTask1]).2
      ⟨sampleTask1, by simp, rfl⟩⟩

/-- C5: a successful update of an existing record keeps every field
absent from the payload at its previous value, trims a provided `text`,
leaves `createdAt` (and the id) unchanged, and sets `updatedAt` to the
current time unconditionally — in particular even when every provided
value equals the old one. -/
theorem updateTask_partial_fields (id : Nat) (text : Option String)
    (cmp imp : Option Bool) (now : Nat) (coll : List TaskRec) (t : TaskRec)
    (h : coll.find? (fun x => x._id == id) = some t) :
    Server.updateTask id text cmp imp now coll =
        (ApiResult.ok 200 (Server.applyUpdateData text cmp imp now t),
          coll.map (fun x =>
            if x._id == id then Server.applyUpdateData text cmp imp now t else x)) ∧
      (text = none → (Server.applyUpdateData text cmp imp now t).text = t.text) ∧
      (∀ s, text = some s →
        (Server.applyUpdateData text cmp imp now t).text = jsTrim s) ∧
      (Server.applyUpdateData text cmp imp now t).completed = cmp.getD t.completed ∧
      (Server.applyUpdateData text cmp imp now t).important = imp.getD t.important ∧
      (Server.applyUpdateData text cmp imp now t).createdAt = t.createdAt ∧
      (Server.applyUpdateData text cmp imp now t)._id = t._id ∧
      (Server.applyUpdateData text cmp imp now t).updatedAt = now := by
  refine ⟨by simp [Server.updateTask, h], ?_, ?_, rfl, rfl, rfl, rfl, rfl⟩
  · intro hn; subst hn; rfl
  · intro s hs; subst hs; rfl

/-- C5 (witness): updating the record with id 1 providing only
`completed = true` keeps text and importance, keeps `createdAt`, and
refreshes `updatedAt`. -/
theorem updateTask_partial_fields_witness :
    Server.updateTask 1 none (some true) none 99 [sampleTask1] =
        (ApiResult.ok 200 (Server.applyUpdateData none (some true) none 99 sampleTask1),
          [sampleTask1].map (fun x =>
            if x._id == 1 then Server.applyUpdateData none (some true) none 99 sampleTask1
            else x)) ∧
      ((none : Option String) = none →
        (Server.applyUpdateData none (some true) none 99 sampleTask1).text =
          sampleTask1.text) ∧
      (∀ s, (none : Option String) = some s →
        (Server.applyUpdateData none (some true) none 99 sampleTask1).text = jsTrim s) ∧
      (Server.applyUpdateData none (some true) none 99 sampleTask1).completed =
        Option.getD (some true) sampleTask1.completed ∧
      (Server.applyUpdateData none (some true) none 99 sampleTask1).important =
        Option.getD none sampleTask1.important ∧
      (Server.applyUpdateData none (some true) none 99 sampleTask1).createdAt =
        sampleTask1.createdAt ∧
      (Server.applyUpdateData none (some true) none 99 sampleTask1)._id =
        sampleTask1._id ∧
      (Server.applyUpdateData none (some true) none 99 sampleTask1).updatedAt = 99 :=
  updateTask_partial_fields 1 none (some true) none 99 [sampleTask1] sampleTask1 (by decide)

/-- C6: the records returned by `GET /api/tasks` are sorted descending by
`createdAt` (`taskGE` orders by larger-or-equal `createdAt`), are a
permutation of the matching records, and within any fixed `createdAt`
value they appear exactly in the collection's insertion order — the sort
is stable. -/
theorem getTasks_sorted_stable (f s : Option String) (coll : List TaskRec) :
    List.Sorted Server.taskGE (Server.getTasks f s coll) ∧
    List.Perm (Server.getTasks f s coll)
      (coll.filter (fun t => Server.filterPred f t && Server.searchPred s t)) ∧
    (∀ c : Nat,
      (Server.getTasks f s coll).filter (fun t => t.createdAt == c) =
        (coll.filter (fun t => Server.filterPred f t && Server.searchPred s t)).filter
          (fun t => t.createdAt == c)) :=
  ⟨List.sorted_insertionSort Server.taskGE _, List.perm_insertionSort Server.taskGE _,
    fun c => filter_createdAt_insertionSort c _⟩

/-- C7: for any fixed search and collection, the `filter=completed` and
`filter=pending` results are disjoint and their union is, as a set of
records, exactly the `filter=all` result. -/
theorem completed_pending_partition (s : Option String) (coll : List TaskRec)
    (t : TaskRec) :
    ¬(t ∈ Server.getTasks (some "completed") s coll ∧
        t ∈ Server.getTasks (some "pending") s coll) ∧
    (t ∈ Server.getTasks (some "completed") s coll ∨
        t ∈ Server.getTasks (some "pending") s coll ↔
      t ∈ Server.getTasks (some "all") s coll) := by
  have hc : Server.filterPred (some "completed") t = t.completed := by
    simp [Server.filterPred]
  have hp : Server.filterPred (some "pending") t = !t.completed := by
    simp [Server.filterPred]
  have ha : Server.filterPred (some "all") t = true := by
    simp [Server.filterPred]
  simp only [mem_getTasks, hc, hp, ha]
  cases htc : t.completed <;> simp [htc]

/-- C8: a successful update response makes the client mirror the same
list with every record of the updated id replaced, in place, by the
server-returned record (so length and order are preserved and all other
records are untouched), and triggers one aggregate-stats refresh. -/
theorem client_update_replaces_in_place (st : ClientState) (id : Nat) (u : TaskRec)
    (h : u._id = id) :
    (Client.updateTask st id (some u)).tasks =
        st.tasks.map (fun t => if t._id == u._id then u else t) ∧
      (Client.updateTask st id (some u)).tasks.length = st.tasks.length ∧
      (∀ t ∈ st.tasks, t._id ≠ u._id →
        t ∈ (Client.updateTask st id (some u)).tasks) ∧
      (Client.updateTask st id (some u)).statsFetches = st.statsFetches + 1 := by
  subst h
  have h1 : (Client.updateTask st u._id (some u)).tasks =
      st.tasks.map (fun t => if t._id == u._id then u else t) := rfl
  refine ⟨h1, by rw [h1]; exact List.length_map _ _, ?_, rfl⟩
  intro t ht hne
  rw [h1]
  have hf : (if t._id == u._id then u else t) = t := by
    have hb : (t._id == u._id) = false := by simpa using hne
    simp [hb]
  exact hf ▸ List.mem_map_of_mem (fun x => if x._id == u._id then u else x) ht

/-- C8 (witness): reconciling an update of id 2 over a mirror holding the
records of ids 1 and 2. -/
theorem client_update_replaces_in_place_witness :
    (Client.updateTask ⟨[sampleTask1, sampleFood], none, false, 0⟩ 2
          (some sampleFood)).tasks =
        [sampleTask1, sampleFood].map
          (fun t => if t._id == sampleFood._id then sampleFood else t) ∧
      (Client.updateTask ⟨[sampleTask1, sampleFood], none, false, 0⟩ 2
          (some sampleFood)).tasks.length = [sampleTask1, sampleFood].length ∧
      (∀ t ∈ [sampleTask1, sampleFood], t._id ≠ sampleFood._id →
        t ∈ (Client.updateTask ⟨[sampleTask1, sampleFood], none, false, 0⟩ 2
          (some sampleFood)).tasks) ∧
      (Client.updateTask ⟨[sampleTask1, sampleFood], none, false, 0⟩ 2
          (some sampleFood)).statsFetches = 0 + 1 :=
  client_update_replaces_in_place ⟨[sampleTask1, sampleFood], none, false, 0⟩ 2
    sampleFood rfl

/-- C9: every failed client request (network error or non-success
response, both reconciled as an absent response) leaves the task mirror
exactly as it was, triggers no stats refresh, and surfaces the
user-visible error message of the attempted action. -/
theorem client_failure_noop (st : ClientState) (id : Nat) :
    ((Client.fetchTasks st none).tasks = st.tasks ∧
      (Client.fetchTasks st none).error =
        some "Failed to load tasks. Please try again." ∧
      (Client.fetchTasks st none).statsFetches = st.statsFetches) ∧
    ((Client.createTask st none).tasks = st.tasks ∧
      (Client.createTask st none).error =
        some "Failed to create task. Please try again." ∧
      (Client.createTask st none).statsFetches = st.statsFetches) ∧
    ((Client.updateTask st id none).tasks = st.tasks ∧
      (Client.updateTask st id none).error =
        some "Failed to update task. Please try again." ∧
      (Client.updateTask st id none).statsFetches = st.statsFetches) ∧
    ((Client.deleteTask st id none).tasks = st.tasks ∧
      (Client.deleteTask st id none).error =
        some "Failed to delete task. Please try again." ∧
      (Client.deleteTask st id none).statsFetches = st.statsFetches) :=
  ⟨⟨rfl, rfl, rfl⟩, ⟨rfl, rfl, rfl⟩, ⟨rfl, rfl, rfl⟩, ⟨rfl, rfl, rfl⟩⟩

/-- C10: any `filter` value other than `completed`, `pending` or
`important` — absent, empty or unrecognized — adds no constraint, so
`GET /api/tasks` behaves exactly as with `filter=all`. -/
theorem getTasks_unrecognized_filter (f s : Option String) (coll : List TaskRec)
    (h1 : f ≠ some "completed") (h2 : f ≠ some "pending")
    (h3 : f ≠ some "important") :
    Server.getTasks f s coll = Server.getTasks (some "all") s coll := by
  unfold Server.getTasks
  congr 1
  apply List.filter_congr
  intro t _
  have hf : Server.filterPred f t = true := by
    simp [Server.filterPred, h1, h2, h3]
  have hall : Server.filterPred (some "all") t = true := by
    simp [Server.filterPred]
  rw [hf, hall]

/-- C10 (witness): `filter=banana` returns the same records as
`filter=all`. -/
theorem getTasks_unrecognized_filter_witness :
    Server.getTasks (some "banana") none [sampleTask1, sampleFood] =
      Server.getTasks (some "all") none [sampleTask1, sampleFood] :=
  getTasks_unrecognized_filter (some "banana") none [sampleTask1, sampleFood]
    (by decide) (by decide) (by decide)

